import Mathlib

/-!
Shallow embedding of the HubSpot auditor backend (`src/server.js`, with the
second source variant `src/unnamed/part_000`): the token lifecycle manager,
the capped/uncapped paginated fetchers, the sampling audit engine, the
duplicate scan and the stale-report scanner.  JS numbers are modelled as `ℚ`
(all quantities involved are small integers and exact ratios), `Math.round`
as `fun q => ⌊q + 1/2⌋` (round half up, which is what `Math.round` does),
timestamps as integer milliseconds, and the remote HTTP collaborators as
explicit response sequences.
-/

/-- A scalar JSON value as it appears in a CRM record's `properties` map. -/
inductive JsValue where
  | null : JsValue
  | str : String → JsValue
  | num : ℚ → JsValue
deriving DecidableEq

/-- `r.properties[p] !== null && r.properties[p] !== ''` for a present key. -/
def JsValue.isFilled : JsValue → Bool
  | .null => false
  | .str s => s ≠ ""
  | .num _ => true

/-- A record's `properties` object: an association list with unique keys
(JSON objects cannot carry duplicate keys). -/
abbrev CrmRecord := List (String × JsValue)

/-- Whether property `p` is present in record `r` with a non-null, non-empty
value; this is exactly the condition under which the fill-counting loop in
`/api/audit` (server.js line 139) increments `fillCounts[p]`. -/
def recordFilled (r : CrmRecord) (p : String) : Bool :=
  match r.lookup p with
  | some v => v.isFilled
  | none => false

/-- `fillCounts[p]` after the `recordsSample.forEach` loop: the number of
sampled records in which `p` is filled. -/
def fillCountOf (sample : List CrmRecord) (p : String) : ℕ :=
  sample.countP (fun r => recordFilled r p)

/-- JavaScript `Math.round`: round half up, `⌊q + 1/2⌋`. -/
def jsRound (q : ℚ) : ℤ := ⌊q + 1 / 2⌋

theorem jsRound_intCast (n : ℤ) : jsRound (n : ℚ) = n := by
  have h : ⌊(1 / 2 : ℚ)⌋ = 0 := by
    rw [Int.floor_eq_zero_iff]
    constructor <;> norm_num
  rw [jsRound, add_comm, Int.floor_add_int, h, zero_add]

theorem jsRound_zero : jsRound 0 = 0 := by
  simpa using jsRound_intCast 0

theorem jsRound_mono {q r : ℚ} (h : q ≤ r) : jsRound q ≤ jsRound r :=
  Int.floor_le_floor (add_le_add_right h _)

theorem jsRound_nonneg {q : ℚ} (h : 0 ≤ q) : 0 ≤ jsRound q := by
  have := jsRound_mono h
  rwa [jsRound_zero] at this

theorem jsRound_le_intCast {q : ℚ} {n : ℤ} (h : q ≤ (n : ℚ)) : jsRound q ≤ n := by
  have := jsRound_mono h
  rwa [jsRound_intCast] at this

theorem jsRound_natCast (n : ℕ) : jsRound (n : ℚ) = n := by
  simpa using jsRound_intCast (n : ℤ)

/-! ## Token Lifecycle Manager (`getValidAccessToken`) -/

/-- One row of the `installations` table. -/
structure Installation where
  refresh_token : String
  access_token : String
  expires_at : ℤ
deriving DecidableEq

/-- Body of a successful refresh-token exchange (`newTokens`); `none` at the
call site models a non-ok response from the token endpoint. -/
structure RefreshTokens where
  access_token : String
  expires_in : ℤ
deriving DecidableEq

/-- One `supabase.from('installations').update({access_token, expires_at})
.eq('hubspot_portal_id', portalId)` call: the key it filters on and the two
fields it sets.  No other field appears in the update payload. -/
structure StoreWrite where
  hubspot_portal_id : String
  access_token : String
  expires_at : ℤ
deriving DecidableEq

/-- Effect of applying a `StoreWrite` to the matching installation row:
`access_token` and `expires_at` are overwritten, `refresh_token` is kept. -/
def applyWrite (inst : Installation) (w : StoreWrite) : Installation :=
  { inst with access_token := w.access_token, expires_at := w.expires_at }

instance {ε α : Type} [DecidableEq ε] [DecidableEq α] : DecidableEq (Except ε α) := fun a b =>
  match a, b with
  | .error x, .error y =>
    if h : x = y then .isTrue (congrArg Except.error h)
    else .isFalse (fun hh => h (Except.error.inj hh))
  | .error _, .ok _ => .isFalse (fun hh => Except.noConfusion hh)
  | .ok _, .error _ => .isFalse (fun hh => Except.noConfusion hh)
  | .ok x, .ok y =>
    if h : x = y then .isTrue (congrArg Except.ok h)
    else .isFalse (fun hh => h (Except.ok.inj hh))

/-- Observable outcome of one `getValidAccessToken` call: the returned token
(or thrown error message), how many token-endpoint requests were issued, and
the credential-store writes performed, in order. -/
structure TokenOutcome where
  result : Except String String
  refreshCalls : ℕ
  writes : List StoreWrite
deriving DecidableEq

/-- `getValidAccessToken(portalId)` (server.js lines 27-44).  Inputs: the
installation row found for `portalId` (`none` = lookup error), the current
time `now` in ms (`new Date()` / `Date.now()`), and the token endpoint's
response to a refresh request.  The refresh branch is taken exactly when
`new Date() > new Date(expires_at)`, i.e. `expires_at < now`. -/
def getValidAccessToken (portalId : String) (installation : Option Installation)
    (now : ℤ) (refreshResponse : Option RefreshTokens) : TokenOutcome :=
  match installation with
  | none =>
      { result := .error ("Could not find installation for portal " ++ portalId ++
          ". Please reinstall the app.")
        refreshCalls := 0
        writes := [] }
  | some inst =>
      if inst.expires_at < now then
        match refreshResponse with
        | none =>
            { result := .error "Failed to refresh access token"
              refreshCalls := 1
              writes := [] }
        | some newTokens =>
            let newExpiresAt : ℤ := now + newTokens.expires_in * 1000
            { result := .ok newTokens.access_token
              refreshCalls := 1
              writes := [⟨portalId, newTokens.access_token, newExpiresAt⟩] }
      else
        { result := .ok inst.access_token
          refreshCalls := 0
          writes := [] }

/-! ## Paginated fetching -/

/-- Upstream response to one page request: a non-success status, or a page of
items together with the optional `paging.next.after` cursor. -/
inductive Page (α : Type) where
  | fail : Page α
  | ok : List α → Option String → Page α

/-- The capped sampling loop of `/api/audit` (server.js lines 127-134):
`for (let i = 0; i < 10; i++)`, requesting pages in sequence; a non-ok page
breaks immediately (keeping what was accumulated), a page without a next
cursor is accumulated and then the loop breaks.  `upstream j` is the response
to the `j`-th request issued by the loop; returns the accumulated items and
the number of requests issued. -/
def sampleLoopGo (upstream : ℕ → Page α) : ℕ → ℕ → List α × ℕ
  | _, 0 => ([], 0)
  | i, fuel + 1 =>
    match upstream i with
    | .fail => ([], 1)
    | .ok items none => (items, 1)
    | .ok items (some _) =>
      let rest := sampleLoopGo upstream (i + 1) fuel
      (items ++ rest.1, rest.2 + 1)

/-- The whole capped fetch: at most 10 page requests. -/
def fetchRecordSample (upstream : ℕ → Page α) : List α × ℕ :=
  sampleLoopGo upstream 0 10

/-- The uncapped `do ... while (after)` loop of `/api/stale-reports`
(server.js lines 198-205) and `/api/inactive-workflows` (lines 225-232):
a non-ok page throws `msg` (discarding everything accumulated), otherwise the
loop runs until a response carries no next cursor.  `none` means the fuel ran
out before the cursor chain ended (the real loop would still be running). -/
def uncappedLoopGo (upstream : ℕ → Page α) (msg : String) :
    ℕ → ℕ → Option (Except String (List α))
  | _, 0 => none
  | i, fuel + 1 =>
    match upstream i with
    | .fail => some (.error msg)
    | .ok items none => some (.ok items)
    | .ok items (some _) =>
      (uncappedLoopGo upstream msg (i + 1) fuel).map (fun e => e.map (items ++ ·))

theorem sampleLoopGo_count_le (upstream : ℕ → Page α) :
    ∀ fuel i, (sampleLoopGo upstream i fuel).2 ≤ fuel := by
  intro fuel
  induction fuel with
  | zero => intro i; simp [sampleLoopGo]
  | succ n ih =>
    intro i
    rw [sampleLoopGo]
    match h : upstream i with
    | .fail => simp
    | .ok items none => simp
    | .ok items (some c) => simpa using ih (i + 1)

/-! ## Sampling Audit Engine (`/api/audit`) -/

/-- One element of `propertiesData.results` from the schema API. -/
structure PropertyDescriptor where
  name : String
  label : String
  type : String
  description : Option String
  hubspotDefined : Bool
deriving DecidableEq

/-- One element of the `auditResults` array in the JSON response. -/
structure AuditResult where
  label : String
  internalName : String
  type : String
  description : String
  isCustom : Bool
  fillRate : ℤ
  fillCount : ℤ
deriving DecidableEq

/-- The JSON body of a successful `/api/audit` response. -/
structure AuditResponse where
  totalRecords : ℕ
  totalProperties : ℕ
  averageCustomFillRate : ℤ
  propertiesWithZeroFillRate : ℕ
  properties : List AuditResult
deriving DecidableEq

/-- The per-property map body of `auditResults` in `server.js` (lines
142-147): the estimate is guarded by `recordsSample.length > 0` and the rate
by `totalRecords > 0`. -/
def auditResultOf (totalRecords : ℕ) (sample : List CrmRecord)
    (prop : PropertyDescriptor) : AuditResult :=
  let fillCountInSample : ℕ := fillCountOf sample prop.name
  let estimatedTotalFillCount : ℤ :=
    if 0 < sample.length then
      jsRound ((fillCountInSample : ℚ) / (sample.length : ℚ) * (totalRecords : ℚ))
    else 0
  let fillRate : ℤ :=
    if 0 < totalRecords then
      jsRound ((estimatedTotalFillCount : ℚ) / (totalRecords : ℚ) * 100)
    else 0
  { label := prop.label
    internalName := prop.name
    type := prop.type
    description := prop.description.getD ""
    isCustom := !prop.hubspotDefined
    fillRate := fillRate
    fillCount := estimatedTotalFillCount }

/-- The per-property map body of `auditResults` in the `part_000` variant
(lines 116-121): same as `auditResultOf` except that the estimate has no
`recordsSample.length > 0` guard (that branch is only reached with a
non-empty sample). -/
def variantResultOf (totalRecords : ℕ) (sample : List CrmRecord)
    (prop : PropertyDescriptor) : AuditResult :=
  let fillCountInSample : ℕ := fillCountOf sample prop.name
  let estimatedTotalFillCount : ℤ :=
    jsRound ((fillCountInSample : ℚ) / (sample.length : ℚ) * (totalRecords : ℚ))
  let fillRate : ℤ :=
    if 0 < totalRecords then
      jsRound ((estimatedTotalFillCount : ℚ) / (totalRecords : ℚ) * 100)
    else 0
  { label := prop.label
    internalName := prop.name
    type := prop.type
    description := prop.description.getD ""
    isCustom := !prop.hubspotDefined
    fillRate := fillRate
    fillCount := estimatedTotalFillCount }

/-- `averageCustomFillRate`: mean of the custom properties' fill rates,
rounded, or 0 when there is no custom property. -/
def averageCustomFillRateOf (results : List AuditResult) : ℤ :=
  let customProperties := results.filter (fun a => a.isCustom)
  if 0 < customProperties.length then
    jsRound (((customProperties.map (fun a => a.fillRate)).sum : ℚ) /
      (customProperties.length : ℚ))
  else 0

/-- `/api/audit` in `server.js` (lines 115-153), from the point where
`totalRecords` has been read: the sample is fetched (capped loop) only when
`totalRecords > 0`, then every schema property is audited. -/
def auditHandler (allProperties : List PropertyDescriptor) (totalRecords : ℕ)
    (upstream : ℕ → Page CrmRecord) : AuditResponse :=
  let recordsSample : List CrmRecord :=
    if 0 < totalRecords then (fetchRecordSample upstream).1 else []
  let auditResults := allProperties.map (auditResultOf totalRecords recordsSample)
  { totalRecords := totalRecords
    totalProperties := auditResults.length
    averageCustomFillRate := averageCustomFillRateOf auditResults
    propertiesWithZeroFillRate := auditResults.countP (fun a => a.fillRate == 0)
    properties := auditResults }

/-- `/api/audit` in the `part_000` variant (lines 86-127): the sample is
fetched unconditionally, and an empty sample short-circuits to an all-zero
response that hard-codes `totalRecords: 0`. -/
def auditHandlerVariant (allProperties : List PropertyDescriptor) (totalRecords : ℕ)
    (upstream : ℕ → Page CrmRecord) : AuditResponse :=
  let recordsSample : List CrmRecord := (fetchRecordSample upstream).1
  if recordsSample.length = 0 then
    { totalRecords := 0
      totalProperties := allProperties.length
      averageCustomFillRate := 0
      propertiesWithZeroFillRate := allProperties.length
      properties := allProperties.map (fun p =>
        { label := p.label
          internalName := p.name
          type := p.type
          description := p.description.getD ""
          isCustom := !p.hubspotDefined
          fillRate := 0
          fillCount := 0 }) }
  else
    let auditResults := allProperties.map (variantResultOf totalRecords recordsSample)
    { totalRecords := totalRecords
      totalProperties := auditResults.length
      averageCustomFillRate := averageCustomFillRateOf auditResults
      propertiesWithZeroFillRate := auditResults.countP (fun a => a.fillRate == 0)
      properties := auditResults }

/-! ## Duplicate scan (`/api/data-health`) -/

/-- Setting key `k` to count `n` in the insertion-ordered counts object:
`acc[k] = n` replaces in place when `k` is already a key and appends a new
key otherwise. -/
def setCount : List (String × ℕ) → String → ℕ → List (String × ℕ)
  | [], k, n => [(k, n)]
  | (k', n') :: rest, k, n =>
    if k' = k then (k, n) :: rest else (k', n') :: setCount rest k n

/-- JavaScript `String.prototype.toLowerCase()`: character-wise lowering,
modelled structurally over the string's character list (so it also reduces
in the kernel, unlike the library's position-recursive `String.map`). -/
def jsToLowerCase (s : String) : String := ⟨s.data.map Char.toLower⟩

/-- One iteration of the `reduce` building `emailCounts` (server.js line
176): take the contact's identifying field (`none` models a null/absent
value on which the optional chaining yields `undefined`), lower-case it,
skip it when falsy (empty string), and otherwise increment `acc[email]`. -/
def emailStep (acc : List (String × ℕ)) (oe : Option String) : List (String × ℕ) :=
  match oe with
  | none => acc
  | some e =>
    let k := jsToLowerCase e
    if k = "" then acc else setCount acc k ((acc.lookup k).getD 0 + 1)

/-- The whole `reduce` building `emailCounts` from the sampled column. -/
def emailCountsOf (emails : List (Option String)) : List (String × ℕ) :=
  emails.foldl emailStep []

/-- `Object.values(emailCounts).filter(c => c > 1).length` (line 177). -/
def contactDuplicatesInSample (emails : List (Option String)) : ℕ :=
  ((emailCountsOf emails).filter (fun p => 1 < p.2)).length

/-- The normalized multiset the scan effectively counts over: the non-null
values, lower-cased, with falsy (empty) ones dropped. -/
def normalizedEmails (emails : List (Option String)) : List String :=
  (emails.filterMap (fun oe => oe.map jsToLowerCase)).filter (fun s => s ≠ "")

/-! ## Report Staleness Scanner (`/api/stale-reports`) -/

/-- Milliseconds in one day. -/
def msPerDay : ℤ := 86400000

/-- One report as returned by the reports API (timestamp in ms). -/
structure Report where
  name : String
  id : String
  updatedAt : ℤ
deriving DecidableEq

/-- One entry of the `staleReports` response array; `updatedAt` is date-only
(`report.updatedAt.split('T')[0]`), i.e. the timestamp floored to midnight. -/
structure StaleEntry where
  name : String
  id : String
  updatedAt : ℤ
deriving DecidableEq

/-- `updatedAt.split('T')[0]` re-parsed as a date: the timestamp floored to
the start of its UTC day. -/
def dateOnly (t : ℤ) : ℤ := msPerDay * (Int.fdiv t msPerDay)

/-- The map body of line 209. -/
def staleEntryOf (r : Report) : StaleEntry :=
  { name := r.name, id := r.id, updatedAt := dateOnly r.updatedAt }

/-- Filter/map/sort of `/api/stale-reports` (server.js lines 206-211):
threshold 180 days before now, strict `<` comparison on the raw timestamp,
then an ascending stable sort on the date-only `updatedAt`. -/
def staleReportsOf (now : ℤ) (allReports : List Report) : List StaleEntry :=
  let staleThreshold := now - 180 * msPerDay
  let stale := (allReports.filter (fun r => r.updatedAt < staleThreshold)).map staleEntryOf
  stale.insertionSort (fun a b => a.updatedAt ≤ b.updatedAt)

/-! ## Concrete fixtures used by witnesses and counterexamples -/

/-- An installation expiring at t = 1000 ms. -/
def inst0 : Installation := ⟨"refresh0", "access0", 1000⟩

/-- An installation expiring at t = 10 ms. -/
def inst1 : Installation := ⟨"refresh1", "access1", 10⟩

/-- An installation already expired at t = 0 ms. -/
def inst2 : Installation := ⟨"refresh2", "access2", 0⟩

/-- An upstream whose every page request fails. -/
def upstreamFail : ℕ → Page CrmRecord := fun _ => .fail

/-- A non-custom `phone` property descriptor. -/
def prop1 : PropertyDescriptor := ⟨"phone", "Phone", "string", none, true⟩

/-! ## C4: token cache / refresh boundary -/

/-- C4 as stated is false on the code: when the current time equals
`expires_at` (so the token is, per the spec, no longer valid), the code's
`new Date() > new Date(expires_at)` comparison is false and the cached token
is returned with no refresh call, whereas the claim requires the
refresh-token exchange at or after `expires_at`. -/
theorem getValidAccessToken_at_expiry_returns_cached :
    inst0.expires_at ≤ 1000 ∧
    getValidAccessToken "p1" (some inst0) 1000 (some ⟨"newtok", 300⟩) =
      { result := .ok "access0", refreshCalls := 0, writes := [] } := by
  exact ⟨by decide, rfl⟩

/-- C4 (amended): `getValidAccessToken` returns the cached `access_token`
with no refresh call and no store write exactly when the current time is at
or before `expires_at`; it performs the refresh-token exchange exactly when
the current time is strictly after `expires_at`. -/
theorem getValidAccessToken_cached_iff (portalId : String) (inst : Installation)
    (now : ℤ) (resp : Option RefreshTokens) :
    (getValidAccessToken portalId (some inst) now resp =
        { result := .ok inst.access_token, refreshCalls := 0, writes := [] } ↔
      now ≤ inst.expires_at) ∧
    ((getValidAccessToken portalId (some inst) now resp).refreshCalls = 1 ↔
      inst.expires_at < now) := by
  by_cases h : inst.expires_at < now
  · cases resp with
    | none =>
      simp only [getValidAccessToken, if_pos h]
      constructor
      · constructor
        · intro he
          exact absurd (congrArg TokenOutcome.result he) (by simp)
        · intro hle; omega
      · simp [h]
    | some r =>
      simp only [getValidAccessToken, if_pos h]
      constructor
      · constructor
        · intro he
          have := congrArg TokenOutcome.refreshCalls he
          simp at this
        · intro hle; omega
      · simp [h]
  · simp only [getValidAccessToken, if_neg h]
    constructor
    · constructor
      · intro _; omega
      · intro _; trivial
    · constructor
      · intro hc; simp at hc
      · intro hlt; exact absurd hlt h

/-- Witness for `getValidAccessToken_cached_iff` at a concrete input: at
t = 5, before `inst1.expires_at = 10`, the cached token comes back with no
call and no write. -/
theorem getValidAccessToken_cached_iff_witness :
    getValidAccessToken "p2" (some inst1) 5 none =
      { result := .ok inst1.access_token, refreshCalls := 0, writes := [] } :=
  (getValidAccessToken_cached_iff "p2" inst1 5 none).1.mpr (by decide)

/-! ## C5: refresh-branch frame -/

/-- C5: a credential-store write happens only on the refresh branch.  With
`expires_at` in the future there are zero refresh calls and zero writes; with
`expires_at` in the past there is exactly one refresh call, and on a
successful exchange exactly one write, keyed by the portal id and carrying
exactly the new `access_token` and `expires_at = now + expires_in·1000`;
applying it to the stored row leaves `refresh_token` unchanged. -/
theorem getValidAccessToken_write_frame (portalId : String) (inst : Installation)
    (now : ℤ) (resp : Option RefreshTokens) :
    (now < inst.expires_at →
      (getValidAccessToken portalId (some inst) now resp).refreshCalls = 0 ∧
      (getValidAccessToken portalId (some inst) now resp).writes = []) ∧
    (inst.expires_at < now →
      (getValidAccessToken portalId (some inst) now resp).refreshCalls = 1 ∧
      (∀ r, resp = some r →
        (getValidAccessToken portalId (some inst) now resp).writes =
          [⟨portalId, r.access_token, now + r.expires_in * 1000⟩] ∧
        ∀ w ∈ (getValidAccessToken portalId (some inst) now resp).writes,
          w.hubspot_portal_id = portalId ∧
          applyWrite inst w =
            { refresh_token := inst.refresh_token
              access_token := r.access_token
              expires_at := now + r.expires_in * 1000 }) ∧
      (resp = none →
        (getValidAccessToken portalId (some inst) now resp).writes = [])) ∧
    ((getValidAccessToken portalId (some inst) now resp).writes ≠ [] →
      inst.expires_at < now) := by
  refine ⟨?_, ?_, ?_⟩
  · intro hfut
    have h : ¬ inst.expires_at < now := by omega
    simp [getValidAccessToken, if_neg h]
  · intro hpast
    cases resp with
    | none => simp [getValidAccessToken, if_pos hpast]
    | some r =>
      refine ⟨by simp [getValidAccessToken, if_pos hpast], ?_, by intro hn; cases hn⟩
      intro r' hr'
      cases hr'
      constructor
      · simp [getValidAccessToken, if_pos hpast]
      · intro w hw
        simp [getValidAccessToken, if_pos hpast] at hw
        subst hw
        exact ⟨rfl, rfl⟩
  · intro hw
    by_contra h
    have h' : ¬ inst.expires_at < now := h
    simp [getValidAccessToken, if_neg h'] at hw

/-- Witness for `getValidAccessToken_write_frame`: `inst2` expired at 0; at
t = 50 with a successful exchange there is one refresh call and exactly one
write, keyed `p3`, setting the new token and `expires_at = 60050`. -/
theorem getValidAccessToken_write_frame_witness :
    inst2.expires_at < 50 ∧
    (getValidAccessToken "p3" (some inst2) 50 (some ⟨"newtok2", 60⟩)).refreshCalls = 1 ∧
    (getValidAccessToken "p3" (some inst2) 50 (some ⟨"newtok2", 60⟩)).writes =
      [⟨"p3", "newtok2", 60050⟩] := by
  have h := (getValidAccessToken_write_frame "p3" inst2 50 (some ⟨"newtok2", 60⟩)).2.1
    (by decide)
  exact ⟨by decide, h.1, ((h.2.1 _ rfl).1.trans (by norm_num))⟩

/-! ## C6: capped, failure-tolerant sampling fetch -/

/-- C6: the `/api/audit` sampling loop issues at most 10 page requests; a
failed page request stops the loop immediately, keeping the items
accumulated so far and raising no error (in particular a first-page failure
yields an empty sample after a single request); a page without a next cursor
is kept and stops the loop; a page with a next cursor is kept and the loop
continues. -/
theorem sampling_fetch_capped {α : Type} (upstream : ℕ → Page α) :
    (fetchRecordSample upstream).2 ≤ 10 ∧
    (upstream 0 = .fail → fetchRecordSample upstream = ([], 1)) ∧
    (∀ i fuel, upstream i = .fail → sampleLoopGo upstream i (fuel + 1) = ([], 1)) ∧
    (∀ i fuel items, upstream i = .ok items none →
      sampleLoopGo upstream i (fuel + 1) = (items, 1)) ∧
    (∀ i fuel items c, upstream i = .ok items (some c) →
      sampleLoopGo upstream i (fuel + 1) =
        (items ++ (sampleLoopGo upstream (i + 1) fuel).1,
          (sampleLoopGo upstream (i + 1) fuel).2 + 1)) := by
  refine ⟨sampleLoopGo_count_le upstream 10 0, ?_, ?_, ?_, ?_⟩
  · intro h
    show sampleLoopGo upstream 0 (9 + 1) = ([], 1)
    rw [sampleLoopGo, h]
  · intro i fuel h
    rw [sampleLoopGo, h]
  · intro i fuel items h
    rw [sampleLoopGo, h]
  · intro i fuel items c h
    rw [sampleLoopGo, h]

/-- Witness for `sampling_fetch_capped`: with every page failing, the fetch
returns an empty sample after exactly one request. -/
theorem sampling_fetch_capped_witness :
    upstreamFail 0 = .fail ∧ fetchRecordSample upstreamFail = ([], 1) :=
  ⟨rfl, (sampling_fetch_capped upstreamFail).2.1 rfl⟩

/-! ## C7: uncapped fail-fast scan -/

/-- C7: in the uncapped report/workflow loops, any failed page request makes
the whole operation fail at once with the descriptive error message, with no
partial item list in the result; and the loop returns normally only after
following the cursor chain to a page that carries no next cursor (every
earlier response carried one). -/
theorem uncapped_scan_fail_fast {α : Type} (upstream : ℕ → Page α) (msg : String) :
    (∀ i fuel, upstream i = .fail →
      uncappedLoopGo upstream msg i (fuel + 1) = some (.error msg)) ∧
    (∀ fuel i l, uncappedLoopGo upstream msg i fuel = some (.ok l) →
      ∃ k, (∃ items, upstream (i + k) = .ok items none) ∧
        ∀ j < k, ∃ items c, upstream (i + j) = .ok items (some c)) := by
  constructor
  · intro i fuel h
    rw [uncappedLoopGo, h]
  · intro fuel
    induction fuel with
    | zero => intro i l h; rw [uncappedLoopGo] at h; cases h
    | succ n ih =>
      intro i l h
      rw [uncappedLoopGo] at h
      match hu : upstream i with
      | .fail =>
        rw [hu] at h
        simp at h
      | .ok items none =>
        refine ⟨0, ⟨items, hu⟩, ?_⟩
        intro j hj
        omega
      | .ok items (some c) =>
        rw [hu] at h
        rcases Option.map_eq_some'.mp h with ⟨e, he, hmap⟩
        cases e with
        | error s =>
          exact Except.noConfusion (show Except.error s = Except.ok l from hmap)
        | ok l' =>
        rcases ih (i + 1) l' he with ⟨k, ⟨items', hk⟩, hchain⟩
        refine ⟨k + 1, ⟨items', ?_⟩, ?_⟩
        · have : i + (k + 1) = i + 1 + k := by omega
          rw [this]; exact hk
        · intro j hj
          cases j with
          | zero => exact ⟨items, c, by simpa using hu⟩
          | succ jj =>
            have hjj : jj < k := by omega
            rcases hchain jj hjj with ⟨its, cc, hc⟩
            refine ⟨its, cc, ?_⟩
            have : i + (jj + 1) = i + 1 + jj := by omega
            rw [this]; exact hc

/-- Witness for `uncapped_scan_fail_fast`: a first-page failure makes the
scan fail with the descriptive message. -/
theorem uncapped_scan_fail_fast_witness :
    upstreamFail 0 = .fail ∧
    uncappedLoopGo upstreamFail "Failed to fetch reports." 0 1 = some (.error "Failed to fetch reports.") :=
  ⟨rfl, (uncapped_scan_fail_fast upstreamFail "Failed to fetch reports.").1 0 0 rfl⟩

/-! ## Audit arithmetic lemmas -/

theorem fillCountOf_le_length (sample : List CrmRecord) (p : String) :
    fillCountOf sample p ≤ sample.length :=
  List.countP_le_length _

/-- The per-property result over an empty sample is all-zero. -/
theorem auditResultOf_nil (tr : ℕ) (prop : PropertyDescriptor) :
    auditResultOf tr [] prop =
      { label := prop.label
        internalName := prop.name
        type := prop.type
        description := prop.description.getD ""
        isCustom := !prop.hubspotDefined
        fillRate := 0
        fillCount := 0 } := by
  simp [auditResultOf, jsRound_zero]

/-- Bounds of the guarded estimate `estimatedTotalFillCount`. -/
theorem est_bounds (tr len fc : ℕ) (h : fc ≤ len) :
    0 ≤ (if 0 < len then jsRound ((fc : ℚ) / (len : ℚ) * (tr : ℚ)) else 0) ∧
    (if 0 < len then jsRound ((fc : ℚ) / (len : ℚ) * (tr : ℚ)) else 0) ≤ (tr : ℤ) := by
  split
  case isTrue hlen =>
    constructor
    · exact jsRound_nonneg (by positivity)
    · apply jsRound_le_intCast
      have h1 : (fc : ℚ) / (len : ℚ) ≤ 1 := by
        rw [div_le_one (by exact_mod_cast hlen)]
        exact_mod_cast h
      calc (fc : ℚ) / (len : ℚ) * (tr : ℚ) ≤ 1 * (tr : ℚ) :=
            mul_le_mul_of_nonneg_right h1 (by positivity)
        _ = (((tr : ℕ) : ℤ) : ℚ) := by push_cast; ring
  case isFalse _ =>
    exact ⟨le_refl 0, by exact_mod_cast Nat.zero_le tr⟩

/-- Bounds of the guarded `fillRate` given a bounded estimate. -/
theorem rate_bounds (tr : ℕ) (est : ℤ) (h0 : 0 ≤ est) (h1 : est ≤ (tr : ℤ)) :
    0 ≤ (if 0 < tr then jsRound ((est : ℚ) / (tr : ℚ) * 100) else 0) ∧
    (if 0 < tr then jsRound ((est : ℚ) / (tr : ℚ) * 100) else 0) ≤ 100 := by
  split
  case isTrue htr =>
    have hnn : (0 : ℚ) ≤ (est : ℚ) := by exact_mod_cast h0
    constructor
    · exact jsRound_nonneg
        (mul_nonneg (div_nonneg hnn (by positivity)) (by norm_num))
    · apply jsRound_le_intCast (n := 100)
      have hd : (est : ℚ) / (tr : ℚ) ≤ 1 := by
        rw [div_le_one (by exact_mod_cast htr)]
        exact_mod_cast h1
      calc (est : ℚ) / (tr : ℚ) * 100 ≤ 1 * 100 :=
            mul_le_mul_of_nonneg_right hd (by norm_num)
        _ = ((100 : ℤ) : ℚ) := by norm_num
  case isFalse _ => norm_num

theorem auditResultOf_fillRate_bounds (tr : ℕ) (sample : List CrmRecord)
    (prop : PropertyDescriptor) :
    0 ≤ (auditResultOf tr sample prop).fillRate ∧
    (auditResultOf tr sample prop).fillRate ≤ 100 := by
  have h := est_bounds tr sample.length (fillCountOf sample prop.name)
    (fillCountOf_le_length sample prop.name)
  exact rate_bounds tr _ h.1 h.2

/-- With a non-empty sample the variant's unguarded estimate agrees with the
guarded one. -/
theorem variantResultOf_pos_eq (tr : ℕ) (sample : List CrmRecord)
    (prop : PropertyDescriptor) (h : 0 < sample.length) :
    variantResultOf tr sample prop = auditResultOf tr sample prop := by
  simp [variantResultOf, auditResultOf, if_pos h]

/-! ## C2: extrapolation formulas -/

/-- C2: with a non-empty sample and a positive total, both variants compute
`estimated_fill_count = round((fill_count_in_sample / sample_size) *
total_records)` and `fill_rate = round((estimated_fill_count /
total_records) * 100)`, where round is round-half-up (`jsRound`). -/
theorem extrapolation_formula_correct (tr : ℕ) (sample : List CrmRecord)
    (prop : PropertyDescriptor) (hs : 0 < sample.length) (ht : 0 < tr) :
    (auditResultOf tr sample prop).fillCount =
      jsRound ((fillCountOf sample prop.name : ℚ) / (sample.length : ℚ) * (tr : ℚ)) ∧
    (auditResultOf tr sample prop).fillRate =
      jsRound (((auditResultOf tr sample prop).fillCount : ℚ) / (tr : ℚ) * 100) ∧
    variantResultOf tr sample prop = auditResultOf tr sample prop := by
  refine ⟨?_, ?_, variantResultOf_pos_eq tr sample prop hs⟩
  · simp [auditResultOf, if_pos hs]
  · simp [auditResultOf, if_pos hs, if_pos ht]

/-- A record in which `phone` is filled. -/
def phoneFilledRec : CrmRecord := [("phone", .str "555-0100")]

/-- A 50-record sample in which `phone` is filled in exactly 10 records. -/
def sample50 : List CrmRecord :=
  List.replicate 10 phoneFilledRec ++ List.replicate 40 []

/-- Witness for `extrapolation_formula_correct`: the spec's worked example,
`total_records = 200`, sample of 50 with `phone` filled in 10 of them gives
`estimated_fill_count = 40` and `fill_rate = 20`. -/
theorem extrapolation_formula_correct_witness :
    0 < sample50.length ∧ 0 < 200 ∧
    (auditResultOf 200 sample50 prop1).fillCount = 40 ∧
    (auditResultOf 200 sample50 prop1).fillRate = 20 := by
  have h := extrapolation_formula_correct 200 sample50 prop1 (by decide) (by decide)
  have hfc : fillCountOf sample50 prop1.name = 10 := by decide
  have hlen : sample50.length = 50 := by decide
  have h1 : (auditResultOf 200 sample50 prop1).fillCount = 40 := by
    rw [h.1, hfc, hlen]; norm_num [jsRound]
  have h2 : (auditResultOf 200 sample50 prop1).fillRate = 20 := by
    rw [h.2.1, h1]; norm_num [jsRound]
  exact ⟨by decide, by decide, h1, h2⟩

/-! ## C3: fill rates are percentages -/

/-- C3: every fill rate either variant of the audit produces lies in
`[0, 100]`, for every schema, total count and upstream behaviour (the fill
counts entering the extrapolation are produced by the fill-counting step, so
they never exceed the sample size). -/
theorem audit_fillRate_in_range (props : List PropertyDescriptor) (tr : ℕ)
    (upstream : ℕ → Page CrmRecord) :
    (∀ a ∈ (auditHandler props tr upstream).properties,
      0 ≤ a.fillRate ∧ a.fillRate ≤ 100) ∧
    (∀ a ∈ (auditHandlerVariant props tr upstream).properties,
      0 ≤ a.fillRate ∧ a.fillRate ≤ 100) := by
  constructor
  · intro a ha
    simp only [auditHandler] at ha
    rcases List.mem_map.mp ha with ⟨p, _, rfl⟩
    exact auditResultOf_fillRate_bounds _ _ _
  · intro a ha
    by_cases hlen : (fetchRecordSample upstream).1.length = 0
    · simp only [auditHandlerVariant, if_pos hlen] at ha
      rcases List.mem_map.mp ha with ⟨p, _, rfl⟩
      exact ⟨le_refl 0, by norm_num⟩
    · simp only [auditHandlerVariant, if_neg hlen] at ha
      rcases List.mem_map.mp ha with ⟨p, _, rfl⟩
      rw [variantResultOf_pos_eq _ _ _ (Nat.pos_of_ne_zero hlen)]
      exact auditResultOf_fillRate_bounds _ _ _

/-- Witness for `audit_fillRate_in_range` at a concrete audit. -/
theorem audit_fillRate_in_range_witness :
    (auditResultOf 7 [] prop1) ∈ (auditHandler [prop1] 7 upstreamFail).properties ∧
    0 ≤ (auditResultOf 7 [] prop1).fillRate ∧
    (auditResultOf 7 [] prop1).fillRate ≤ 100 := by
  have hmem : (auditResultOf 7 [] prop1) ∈ (auditHandler [prop1] 7 upstreamFail).properties :=
    List.mem_singleton_self _
  exact ⟨hmem, (audit_fillRate_in_range [prop1] 7 upstreamFail).1 _ hmem⟩

/-! ## C1: empty-sample short circuit -/

/-- An audit response in which every property reports zero fill, the average
custom fill rate is zero and every property counts as zero-fill. -/
def AuditZeroed (resp : AuditResponse) : Prop :=
  (∀ a ∈ resp.properties, a.fillRate = 0 ∧ a.fillCount = 0) ∧
  resp.averageCustomFillRate = 0 ∧
  resp.propertiesWithZeroFillRate = resp.totalProperties

theorem averageCustomFillRateOf_eq_zero {results : List AuditResult}
    (h : ∀ a ∈ results, a.fillRate = 0) : averageCustomFillRateOf results = 0 := by
  simp only [averageCustomFillRateOf]
  have hsum : ((results.filter fun a => a.isCustom).map fun a => (a.fillRate : ℚ)).sum = 0 := by
    apply List.sum_eq_zero
    intro x hx
    rcases List.mem_map.mp hx with ⟨a, ha, rfl⟩
    rw [h a (List.mem_of_mem_filter ha)]
    exact Int.cast_zero
  rw [hsum]
  simp [jsRound_zero]

theorem countP_zeroFill {results : List AuditResult}
    (h : ∀ a ∈ results, a.fillRate = 0) :
    results.countP (fun a => a.fillRate == 0) = results.length := by
  apply List.countP_eq_length.mpr
  intro a ha
  simpa using h a ha

theorem auditHandler_zeroed (props : List PropertyDescriptor) (tr : ℕ)
    (upstream : ℕ → Page CrmRecord)
    (hs : (if 0 < tr then (fetchRecordSample upstream).1 else []) = []) :
    AuditZeroed (auditHandler props tr upstream) := by
  simp only [AuditZeroed, auditHandler]
  rw [hs]
  have hz : ∀ a ∈ props.map (auditResultOf tr []), a.fillRate = 0 ∧ a.fillCount = 0 := by
    intro a ha
    rcases List.mem_map.mp ha with ⟨p, _, rfl⟩
    rw [auditResultOf_nil]
    exact ⟨rfl, rfl⟩
  refine ⟨hz, averageCustomFillRateOf_eq_zero (fun a ha => (hz a ha).1), ?_⟩
  exact countP_zeroFill (fun a ha => (hz a ha).1)

theorem auditHandlerVariant_zeroed (props : List PropertyDescriptor) (tr : ℕ)
    (upstream : ℕ → Page CrmRecord) (h : (fetchRecordSample upstream).1 = []) :
    AuditZeroed (auditHandlerVariant props tr upstream) := by
  simp only [AuditZeroed, auditHandlerVariant]
  rw [h]
  simp only [List.length_nil, if_pos rfl]
  refine ⟨?_, rfl, rfl⟩
  intro a ha
  rcases List.mem_map.mp ha with ⟨p, _, rfl⟩
  exact ⟨rfl, rfl⟩

/-- C1: whenever the retrieved record sample is empty — in particular when
`total_records = 0`, or when the first sample page request failed — both
variants of the audit report `fill_rate = 0` and `fill_count = 0` for every
property, summary average fill rate 0, and `properties_with_zero_fill_rate`
equal to the total number of properties (all guarded arithmetic, with no
division entering the result). -/
theorem audit_empty_sample_zeroed (props : List PropertyDescriptor) (tr : ℕ)
    (upstream : ℕ → Page CrmRecord) :
    ((fetchRecordSample upstream).1 = [] →
      AuditZeroed (auditHandler props tr upstream) ∧
      AuditZeroed (auditHandlerVariant props tr upstream)) ∧
    (tr = 0 → AuditZeroed (auditHandler props tr upstream)) := by
  constructor
  · intro h
    refine ⟨auditHandler_zeroed props tr upstream ?_,
      auditHandlerVariant_zeroed props tr upstream h⟩
    split <;> simp [h]
  · intro h
    subst h
    exact auditHandler_zeroed props 0 upstream (by simp)

/-- Witness for `audit_empty_sample_zeroed`: a first-page failure with a
positive total gives the all-zero audit. -/
theorem audit_empty_sample_zeroed_witness :
    (fetchRecordSample upstreamFail).1 = [] ∧
    AuditZeroed (auditHandler [prop1] 5 upstreamFail) :=
  ⟨rfl, ((audit_empty_sample_zeroed [prop1] 5 upstreamFail).1 rfl).1⟩

/-! ## C10: the two audit variants -/

theorem AuditResponse.ext' {x y : AuditResponse}
    (h1 : x.totalRecords = y.totalRecords)
    (h2 : x.totalProperties = y.totalProperties)
    (h3 : x.averageCustomFillRate = y.averageCustomFillRate)
    (h4 : x.propertiesWithZeroFillRate = y.propertiesWithZeroFillRate)
    (h5 : x.properties = y.properties) : x = y := by
  cases x; cases y
  simp_all

/-- With `totalRecords = 0` the variant's unguarded estimate is zero, so its
per-property result agrees with the server one over the empty sample. -/
theorem variantResultOf_zero_tr (sample : List CrmRecord) (prop : PropertyDescriptor) :
    variantResultOf 0 sample prop = auditResultOf 0 [] prop := by
  rw [auditResultOf_nil]
  simp [variantResultOf, jsRound_zero]

/-- `auditHandler` written without its internal lets. -/
theorem auditHandler_eq (props : List PropertyDescriptor) (tr : ℕ)
    (upstream : ℕ → Page CrmRecord) :
    auditHandler props tr upstream =
      { totalRecords := tr
        totalProperties := (props.map (auditResultOf tr
          (if 0 < tr then (fetchRecordSample upstream).1 else []))).length
        averageCustomFillRate := averageCustomFillRateOf (props.map (auditResultOf tr
          (if 0 < tr then (fetchRecordSample upstream).1 else [])))
        propertiesWithZeroFillRate := (props.map (auditResultOf tr
          (if 0 < tr then (fetchRecordSample upstream).1 else []))).countP
            (fun a => a.fillRate == 0)
        properties := props.map (auditResultOf tr
          (if 0 < tr then (fetchRecordSample upstream).1 else [])) } := rfl

/-- The variant's general path written without its internal lets. -/
theorem auditHandlerVariant_cons (props : List PropertyDescriptor) (tr : ℕ)
    (upstream : ℕ → Page CrmRecord) (h : (fetchRecordSample upstream).1.length ≠ 0) :
    auditHandlerVariant props tr upstream =
      { totalRecords := tr
        totalProperties := (props.map (variantResultOf tr (fetchRecordSample upstream).1)).length
        averageCustomFillRate := averageCustomFillRateOf
          (props.map (variantResultOf tr (fetchRecordSample upstream).1))
        propertiesWithZeroFillRate :=
          (props.map (variantResultOf tr (fetchRecordSample upstream).1)).countP
            (fun a => a.fillRate == 0)
        properties := props.map (variantResultOf tr (fetchRecordSample upstream).1) } := by
  simp only [auditHandlerVariant, if_neg h]

/-- The variant's short-circuit written explicitly. -/
theorem auditHandlerVariant_nil (props : List PropertyDescriptor) (tr : ℕ)
    (upstream : ℕ → Page CrmRecord) (h : (fetchRecordSample upstream).1 = []) :
    auditHandlerVariant props tr upstream =
      { totalRecords := 0
        totalProperties := props.length
        averageCustomFillRate := 0
        propertiesWithZeroFillRate := props.length
        properties := props.map (fun p =>
          { label := p.label
            internalName := p.name
            type := p.type
            description := p.description.getD ""
            isCustom := !p.hubspotDefined
            fillRate := 0
            fillCount := 0 }) } := by
  simp only [auditHandlerVariant]
  rw [h]
  rfl

/-- Over an empty effective sample the server response is the all-zero
literal as well, keeping its real `totalRecords`. -/
theorem auditHandler_sample_nil (props : List PropertyDescriptor) (tr : ℕ)
    (upstream : ℕ → Page CrmRecord)
    (hs : (if 0 < tr then (fetchRecordSample upstream).1 else []) = []) :
    auditHandler props tr upstream =
      { totalRecords := tr
        totalProperties := props.length
        averageCustomFillRate := 0
        propertiesWithZeroFillRate := props.length
        properties := props.map (fun p =>
          { label := p.label
            internalName := p.name
            type := p.type
            description := p.description.getD ""
            isCustom := !p.hubspotDefined
            fillRate := 0
            fillCount := 0 }) } := by
  rw [auditHandler_eq, hs]
  have hmap : props.map (auditResultOf tr []) = props.map (fun p =>
      ({ label := p.label
         internalName := p.name
         type := p.type
         description := p.description.getD ""
         isCustom := !p.hubspotDefined
         fillRate := 0
         fillCount := 0 } : AuditResult)) :=
    List.map_congr_left (fun p _ => auditResultOf_nil tr p)
  rw [hmap]
  have hz : ∀ a ∈ props.map (fun p =>
      ({ label := p.label
         internalName := p.name
         type := p.type
         description := p.description.getD ""
         isCustom := !p.hubspotDefined
         fillRate := 0
         fillCount := 0 } : AuditResult)), a.fillRate = 0 := by
    intro a ha
    rcases List.mem_map.mp ha with ⟨p, _, rfl⟩
    rfl
  rw [averageCustomFillRateOf_eq_zero hz, countP_zeroFill hz]
  simp [List.length_map]

/-- C10 is false as stated: with a positive counted total and an empty
sample (first page failed), `server.js` reports the counted `totalRecords`
while the `part_000` variant's short-circuit hard-codes `totalRecords: 0`,
so the two variants do not compute the same audit response. -/
theorem audit_variants_disagree :
    (auditHandler [prop1] 500 upstreamFail).totalRecords = 500 ∧
    (auditHandlerVariant [prop1] 500 upstreamFail).totalRecords = 0 ∧
    auditHandlerVariant [prop1] 500 upstreamFail ≠ auditHandler [prop1] 500 upstreamFail := by
  refine ⟨rfl, rfl, fun h => ?_⟩
  exact absurd (congrArg AuditResponse.totalRecords h) (by decide)

/-- C10 (amended): the two variants compute the same per-property results
and the same summary fields on every identical sequence of upstream
responses; the whole responses agree except that whenever the fetched sample
is empty the variant reports `totalRecords = 0` where `server.js` reports
the counted total. -/
theorem auditHandlerVariant_refines (props : List PropertyDescriptor) (tr : ℕ)
    (upstream : ℕ → Page CrmRecord) :
    auditHandlerVariant props tr upstream =
      { auditHandler props tr upstream with
          totalRecords :=
            if (fetchRecordSample upstream).1.length = 0 then 0 else tr } := by
  by_cases hlen : (fetchRecordSample upstream).1.length = 0
  · have hnil : (fetchRecordSample upstream).1 = [] := List.length_eq_zero.mp hlen
    have hs : (if 0 < tr then (fetchRecordSample upstream).1 else ([] : List CrmRecord)) = [] := by
      split <;> simp [hnil]
    rw [auditHandlerVariant_nil props tr upstream hnil,
      auditHandler_sample_nil props tr upstream hs, if_pos hlen]
  · have hpos : 0 < (fetchRecordSample upstream).1.length := Nat.pos_of_ne_zero hlen
    rw [if_neg hlen, auditHandlerVariant_cons props tr upstream hlen, auditHandler_eq]
    rcases Nat.eq_zero_or_pos tr with htr | htr
    · subst htr
      have hS : (if 0 < 0 then (fetchRecordSample upstream).1 else ([] : List CrmRecord)) = [] := by
        simp
      rw [hS]
      have hmap : props.map (variantResultOf 0 (fetchRecordSample upstream).1) =
          props.map (auditResultOf 0 []) :=
        List.map_congr_left (fun p _ => variantResultOf_zero_tr _ p)
      rw [hmap]
    · have hS : (if 0 < tr then (fetchRecordSample upstream).1 else ([] : List CrmRecord)) =
          (fetchRecordSample upstream).1 := if_pos htr
      rw [hS]
      have hmap : props.map (variantResultOf tr (fetchRecordSample upstream).1) =
          props.map (auditResultOf tr (fetchRecordSample upstream).1) :=
        List.map_congr_left (fun p _ => variantResultOf_pos_eq tr _ p hpos)
      rw [hmap]

/-! ## C8: stale-report filter, mapping and sort -/

instance : IsTotal StaleEntry (fun a b => a.updatedAt ≤ b.updatedAt) :=
  ⟨fun a b => le_total a.updatedAt b.updatedAt⟩

instance : IsTrans StaleEntry (fun a b => a.updatedAt ≤ b.updatedAt) :=
  ⟨fun _ _ _ h1 h2 => le_trans h1 h2⟩

/-- C8: the stale-report scan returns exactly the reports whose raw
last-updated timestamp is strictly older than 180 days before now — so one
updated exactly 181 days ago is included and one updated exactly 179 days
ago is excluded — each mapped to its name, id and date-only `updatedAt`, and
the result is sorted ascending (oldest first) by that `updatedAt`. -/
theorem staleReports_spec (now : ℤ) :
    (∀ reports : List Report, ∀ e : StaleEntry,
      e ∈ staleReportsOf now reports ↔
        ∃ r ∈ reports, r.updatedAt < now - 180 * msPerDay ∧ e = staleEntryOf r) ∧
    (∀ reports : List Report,
      List.Sorted (fun a b => a.updatedAt ≤ b.updatedAt) (staleReportsOf now reports)) ∧
    (∀ nm rid, staleReportsOf now [⟨nm, rid, now - 181 * msPerDay⟩] =
      [staleEntryOf ⟨nm, rid, now - 181 * msPerDay⟩]) ∧
    (∀ nm rid, staleReportsOf now [⟨nm, rid, now - 179 * msPerDay⟩] = []) := by
  refine ⟨?_, ?_, ?_, ?_⟩
  · intro reports e
    simp only [staleReportsOf]
    rw [List.mem_insertionSort]
    constructor
    · intro hmem
      rcases List.mem_map.mp hmem with ⟨r, hr, rfl⟩
      rcases List.mem_filter.mp hr with ⟨hrep, hlt⟩
      exact ⟨r, hrep, by simpa using hlt, rfl⟩
    · rintro ⟨r, hrep, hlt, rfl⟩
      exact List.mem_map.mpr ⟨r, List.mem_filter.mpr ⟨hrep, by simpa using hlt⟩, rfl⟩
  · intro reports
    simp only [staleReportsOf]
    exact List.sorted_insertionSort _ _
  · intro nm rid
    simp only [staleReportsOf]
    rw [List.filter_cons_of_pos (by
      simp only [decide_eq_true_eq, msPerDay]
      omega), List.filter_nil]
    rfl
  · intro nm rid
    simp only [staleReportsOf]
    rw [List.filter_cons_of_neg (by
      simp only [decide_eq_true_eq, msPerDay]
      omega), List.filter_nil]
    rfl

/-- Witness for `staleReports_spec` at now = 0: a report exactly 181 days
old is kept (date-only), one exactly 179 days old is dropped. -/
theorem staleReports_spec_witness :
    staleReportsOf 0 [⟨"r1", "id1", 0 - 181 * msPerDay⟩] =
      [staleEntryOf ⟨"r1", "id1", 0 - 181 * msPerDay⟩] ∧
    staleReportsOf 0 [⟨"r2", "id2", 0 - 179 * msPerDay⟩] = [] :=
  ⟨(staleReports_spec 0).2.2.1 "r1" "id1", (staleReports_spec 0).2.2.2 "r2" "id2"⟩

/-! ## C9: duplicate-scan counting machinery -/

/-- Incrementing key `k` in the counts object. -/
def tallyStep (acc : List (String × ℕ)) (k : String) : List (String × ℕ) :=
  setCount acc k ((acc.lookup k).getD 0 + 1)

theorem lookup_setCount_self (acc : List (String × ℕ)) (k : String) (n : ℕ) :
    (setCount acc k n).lookup k = some n := by
  induction acc with
  | nil => simp [setCount, List.lookup]
  | cons hd tl ih =>
    obtain ⟨k', n'⟩ := hd
    by_cases h : k' = k
    · subst h
      simp [setCount, List.lookup]
    · have hb : (k == k') = false := beq_eq_false_iff_ne.mpr (Ne.symm h)
      simp [setCount, if_neg h, List.lookup, hb, ih]

theorem lookup_setCount_ne (acc : List (String × ℕ)) (k : String) (n : ℕ)
    (k' : String) (h : k' ≠ k) :
    (setCount acc k n).lookup k' = acc.lookup k' := by
  induction acc with
  | nil =>
    have hb : (k' == k) = false := beq_eq_false_iff_ne.mpr h
    simp [setCount, List.lookup, hb]
  | cons hd tl ih =>
    obtain ⟨k'', n''⟩ := hd
    by_cases h2 : k'' = k
    · subst h2
      have hb : (k' == k'') = false := beq_eq_false_iff_ne.mpr h
      simp [setCount, List.lookup, hb]
    · by_cases h3 : k' = k''
      · subst h3
        simp [setCount, if_neg h2, List.lookup]
      · have hb : (k' == k'') = false := beq_eq_false_iff_ne.mpr h3
        simp [setCount, if_neg h2, List.lookup, hb, ih]

theorem keys_setCount (acc : List (String × ℕ)) (k : String) (n : ℕ) :
    (setCount acc k n).map Prod.fst =
      if k ∈ acc.map Prod.fst then acc.map Prod.fst else acc.map Prod.fst ++ [k] := by
  induction acc with
  | nil => simp [setCount]
  | cons hd tl ih =>
    obtain ⟨k', n'⟩ := hd
    by_cases h : k' = k
    · subst h
      simp [setCount]
    · have hne : ¬k = k' := fun hh => h hh.symm
      simp only [setCount, if_neg h, List.map_cons, List.mem_cons, ih]
      by_cases hmem : k ∈ tl.map Prod.fst
      · simp [hmem, hne]
      · simp [hmem, hne]

theorem keys_setCount_nodup {acc : List (String × ℕ)} (k : String) (n : ℕ)
    (h : (acc.map Prod.fst).Nodup) : ((setCount acc k n).map Prod.fst).Nodup := by
  rw [keys_setCount]
  split
  · exact h
  · case isFalse hmem =>
    simp [List.nodup_append, h, hmem]

/-- In an association list with nodup keys, every entry is what lookup finds
for its key. -/
theorem lookup_eq_of_mem {l : List (String × ℕ)}
    (hnd : (l.map Prod.fst).Nodup) {p : String × ℕ} (hp : p ∈ l) :
    l.lookup p.1 = some p.2 := by
  induction l with
  | nil => cases hp
  | cons hd tl ih =>
    obtain ⟨k', n'⟩ := hd
    rcases List.mem_cons.mp hp with hph | hptl
    · subst hph
      simp [List.lookup]
    · have hk : p.1 ≠ k' := by
        intro he
        have : p.1 ∈ tl.map Prod.fst := List.mem_map.mpr ⟨p, hptl, rfl⟩
        rw [he] at this
        exact (List.nodup_cons.mp hnd).1 this
      have hb : (p.1 == k') = false := beq_eq_false_iff_ne.mpr hk
      simpa [List.lookup, hb] using ih (List.nodup_cons.mp hnd).2 hptl

theorem mem_keys_of_lookup {l : List (String × ℕ)} {k : String} {n : ℕ}
    (h : l.lookup k = some n) : k ∈ l.map Prod.fst := by
  induction l with
  | nil => simp [List.lookup] at h
  | cons hd tl ih =>
    obtain ⟨k', n'⟩ := hd
    by_cases hk : k = k'
    · subst hk
      simp
    · have hb : (k == k') = false := beq_eq_false_iff_ne.mpr hk
      simp only [List.lookup, hb] at h
      exact List.mem_cons.mpr (Or.inr (ih h))

/-- The invariant the counting fold maintains: the accumulator has distinct
keys, and looks up to exactly the occurrence counts of the processed list. -/
def Tallies (seen : List String) (acc : List (String × ℕ)) : Prop :=
  (acc.map Prod.fst).Nodup ∧
  ∀ k, acc.lookup k = if seen.count k = 0 then none else some (seen.count k)

theorem tallies_nil : Tallies [] [] :=
  ⟨List.nodup_nil, fun k => by simp [List.lookup]⟩

theorem tallies_step {seen : List String} {acc : List (String × ℕ)}
    (h : Tallies seen acc) (k : String) : Tallies (seen ++ [k]) (tallyStep acc k) := by
  obtain ⟨hnd, hlk⟩ := h
  constructor
  · exact keys_setCount_nodup k _ hnd
  · intro k'
    by_cases hk : k' = k
    · subst hk
      rw [tallyStep, lookup_setCount_self]
      have hcount : (seen ++ [k']).count k' = seen.count k' + 1 := by
        simp [List.count_append]
      rw [hcount, hlk k']
      by_cases hc : seen.count k' = 0
      · rw [if_pos hc, hc]
        simp
      · rw [if_neg hc]
        simp [Nat.succ_ne_zero]
    · rw [tallyStep, lookup_setCount_ne _ _ _ _ hk]
      have hcount : (seen ++ [k]).count k' = seen.count k' := by
        have hb : (k == k') = false := beq_eq_false_iff_ne.mpr (fun he => hk he.symm)
        simp [List.count_append, List.count_singleton, hb]
      rw [hcount, hlk k']

theorem tallies_foldl (l : List String) :
    ∀ (seen : List String) (acc : List (String × ℕ)), Tallies seen acc →
      Tallies (seen ++ l) (l.foldl tallyStep acc) := by
  induction l with
  | nil => intro seen acc h; simpa using h
  | cons k t ih =>
    intro seen acc h
    have h2 := ih (seen ++ [k]) (tallyStep acc k) (tallies_step h k)
    simpa [List.append_assoc] using h2

theorem tallies_tally (l : List String) : Tallies l (l.foldl tallyStep []) := by
  simpa using tallies_foldl l [] [] tallies_nil

theorem normalizedEmails_none (l : List (Option String)) :
    normalizedEmails (none :: l) = normalizedEmails l := by
  simp [normalizedEmails]

theorem normalizedEmails_some_empty (e : String) (l : List (Option String))
    (h : jsToLowerCase e = "") :
    normalizedEmails (some e :: l) = normalizedEmails l := by
  simp [normalizedEmails, h]

theorem normalizedEmails_some (e : String) (l : List (Option String))
    (h : ¬jsToLowerCase e = "") :
    normalizedEmails (some e :: l) = jsToLowerCase e :: normalizedEmails l := by
  simp [normalizedEmails, h]

/-- The scan's fold over the raw column is the counting fold over the
normalized multiset. -/
theorem emailCountsOf_eq_tally (emails : List (Option String)) :
    emailCountsOf emails = (normalizedEmails emails).foldl tallyStep [] := by
  suffices h : ∀ acc, emails.foldl emailStep acc =
      (normalizedEmails emails).foldl tallyStep acc from h []
  induction emails with
  | nil => intro acc; rfl
  | cons oe rest ih =>
    intro acc
    cases oe with
    | none =>
      rw [normalizedEmails_none, List.foldl_cons]
      show List.foldl emailStep acc rest = _
      exact ih acc
    | some e =>
      by_cases he : jsToLowerCase e = ""
      · rw [normalizedEmails_some_empty e rest he, List.foldl_cons]
        have hstep : emailStep acc (some e) = acc := by
          simp [emailStep, he]
        rw [hstep]
        exact ih acc
      · rw [normalizedEmails_some e rest he, List.foldl_cons, List.foldl_cons]
        have hstep : emailStep acc (some e) = tallyStep acc (jsToLowerCase e) := by
          simp [emailStep, he, tallyStep]
        rw [hstep]
        exact ih (tallyStep acc (jsToLowerCase e))

/-- Counting entries with value above 1 in the tally equals counting the
distinct elements occurring more than once. -/
theorem tally_dup_count (l : List String) :
    ((l.foldl tallyStep []).filter (fun p => 1 < p.2)).length =
      (l.dedup.filter (fun v => 1 < l.count v)).length := by
  obtain ⟨hnd, hlk⟩ := tallies_tally l
  rw [← List.countP_eq_length_filter, ← List.countP_eq_length_filter]
  have hval : ∀ p ∈ l.foldl tallyStep [], p.2 = l.count p.1 := by
    intro p hp
    have h1 : (l.foldl tallyStep []).lookup p.1 = some p.2 := lookup_eq_of_mem hnd hp
    have h2 := hlk p.1
    rw [h1] at h2
    by_cases hc : l.count p.1 = 0
    · rw [if_pos hc] at h2; cases h2
    · rw [if_neg hc] at h2; exact Option.some.inj h2
  have hcongr : (l.foldl tallyStep []).countP (fun p => 1 < p.2) =
      (l.foldl tallyStep []).countP (fun p => 1 < l.count p.1) := by
    apply List.countP_congr
    intro p hp
    simp [hval p hp]
  rw [hcongr]
  have hkeys : (l.foldl tallyStep []).countP (fun p => 1 < l.count p.1) =
      ((l.foldl tallyStep []).map Prod.fst).countP (fun k => 1 < l.count k) := by
    rw [List.countP_map]
    rfl
  rw [hkeys]
  have hperm : List.Perm ((l.foldl tallyStep []).map Prod.fst) l.dedup := by
    apply (List.perm_ext_iff_of_nodup hnd (List.nodup_dedup l)).mpr
    intro a
    constructor
    · intro ha
      rcases List.mem_map.mp ha with ⟨p, hp, rfl⟩
      have h2 := hlk p.1
      have h1 : (l.foldl tallyStep []).lookup p.1 = some p.2 := lookup_eq_of_mem hnd hp
      by_cases hc : l.count p.1 = 0
      · rw [if_pos hc, h1] at h2; cases h2
      · exact List.mem_dedup.mpr (List.count_pos_iff.mp (Nat.pos_of_ne_zero hc))
    · intro ha
      have hmem : a ∈ l := List.mem_dedup.mp ha
      have hc : l.count a ≠ 0 := (List.count_pos_iff.mpr hmem).ne'
      have h2 := hlk a
      rw [if_neg hc] at h2
      exact mem_keys_of_lookup h2
  rw [hperm.countP_eq]

/-- C9: the duplicate scan lower-cases the present identifying values,
counts occurrences per normalized value, and reports the number of distinct
normalized values occurring more than once in the sample; on the sample
whose normalized emails are `[a, a, b, c, c, c]` it reports 2, not 4. -/
theorem duplicate_scan_distinct_values :
    (∀ emails : List (Option String),
      contactDuplicatesInSample emails =
        ((normalizedEmails emails).dedup.filter
          (fun v => 1 < (normalizedEmails emails).count v)).length) ∧
    contactDuplicatesInSample
      [some "A", some "a", some "b", none, some "C", some "c", some "c"] = 2 := by
  have hmain : ∀ emails : List (Option String),
      contactDuplicatesInSample emails =
        ((normalizedEmails emails).dedup.filter
          (fun v => 1 < (normalizedEmails emails).count v)).length := by
    intro emails
    rw [contactDuplicatesInSample, emailCountsOf_eq_tally]
    exact tally_dup_count (normalizedEmails emails)
  exact ⟨hmain, by decide⟩
